import Mathlib

/-!
Shallow embedding of the snake simulation from src/src/main.rs and
verification of its specification.

Modelling conventions:
- i16 coordinates are modelled as Int. In the program every coordinate
  stays inside the 30 x 20 grid and the arithmetic offsets are plus or
  minus 1, so i16 overflow cannot occur and Int is exact.
- The Rust remainder operator on signed integers truncates toward zero,
  which is Int.tmod in Lean; the Lean % on Int (Int.emod) is the
  mathematical modulo with nonnegative result for a positive modulus.
- std::time::Instant is modelled as a Nat timestamp in milliseconds,
  supplied to the frame update as an oracle argument.
- rand::thread_rng().gen_range(0, max) draws are supplied as oracle
  arguments; gen_range(0, max) always returns a value in [0, max).
- LinkedList of Segment is modelled as List Segment with the list head
  at the front (push_front is cons, pop_back is dropLast).
-/

/-- Grid size constant from the source: a 30 x 20 board. -/
def GRID_SIZE : Int × Int := (30, 20)

/-- Update rate constant from the source. -/
def UPDATES_PER_SECOND : Nat := 8

/-- Milliseconds per update; the f32 computation (1.0 / 8.0 * 1000.0) as u64
in the source is exact and equals 1000 / 8 = 125. -/
def MILLIS_PER_UPDATE : Nat := 1000 / UPDATES_PER_SECOND

/-- GridPosition from the source: a pair of signed integer coordinates. -/
structure GridPosition where
  x : Int
  y : Int
deriving DecidableEq

/-- The ModuloSigned trait implementation from the source, instantiated at
the integers: (self % n + n) % n with the Rust truncating remainder. -/
def modulo (x n : Int) : Int := ((x.tmod n) + n).tmod n

/-- GridPosition::new from the source. -/
def GridPosition.new (x y : Int) : GridPosition := ⟨x, y⟩

/-- GridPosition::random from the source: the two values sampled by
gen_range(0, max_x) and gen_range(0, max_y) are passed in as an oracle
argument and converted to a GridPosition as the From impl does. -/
def GridPosition.random (draw : Int × Int) : GridPosition := ⟨draw.1, draw.2⟩

/-- Direction enum from the source. -/
inductive Direction where
  | Up
  | Down
  | Left
  | Right
deriving DecidableEq

/-- Direction::inverse from the source. -/
def Direction.inverse (d : Direction) : Direction :=
  match d with
  | .Up => .Down
  | .Down => .Up
  | .Left => .Right
  | .Right => .Left

/-- The ggez KeyCode type, restricted to the four arrow keys that the
source matches on plus one representative of every other key (the
wildcard arm of Direction::from_keycode). -/
inductive KeyCode where
  | Up
  | Down
  | Left
  | Right
  | Other
deriving DecidableEq

/-- Direction::from_keycode from the source. -/
def Direction.from_keycode (key : KeyCode) : Option Direction :=
  match key with
  | .Up => some .Up
  | .Down => some .Down
  | .Left => some .Left
  | .Right => some .Right
  | .Other => none

/-- GridPosition::new_from_move from the source: one step in direction dir,
wrapped by the signed modulo in the axis matching the direction. -/
def GridPosition.new_from_move (pos : GridPosition) (dir : Direction) : GridPosition :=
  match dir with
  | .Up => GridPosition.new pos.x (modulo (pos.y - 1) GRID_SIZE.2)
  | .Down => GridPosition.new pos.x (modulo (pos.y + 1) GRID_SIZE.2)
  | .Left => GridPosition.new (modulo (pos.x - 1) GRID_SIZE.1) pos.y
  | .Right => GridPosition.new (modulo (pos.x + 1) GRID_SIZE.1) pos.y

/-- Segment from the source: a wrapper around a GridPosition. -/
structure Segment where
  pos : GridPosition
deriving DecidableEq

/-- Segment::new from the source. -/
def Segment.new (pos : GridPosition) : Segment := ⟨pos⟩

/-- Food from the source: a wrapper around a GridPosition. -/
structure Food where
  pos : GridPosition
deriving DecidableEq

/-- Food::new from the source. -/
def Food.new (pos : GridPosition) : Food := ⟨pos⟩

/-- Ate enum from the source: what the snake ate during an update. -/
inductive Ate where
  | Itself
  | Food
deriving DecidableEq

/-- Snake struct from the source. -/
structure Snake where
  head : Segment
  dir : Direction
  body : List Segment
  ate : Option Ate
  last_update_dir : Direction
deriving DecidableEq

/-- Snake::new from the source: head at pos, one body segment directly to
the left, moving Right. -/
def Snake.new (pos : GridPosition) : Snake :=
  { head := Segment.new pos
    dir := Direction.Right
    body := [Segment.new ⟨pos.x - 1, pos.y⟩]
    ate := none
    last_update_dir := Direction.Right }

/-- Snake::eats from the source: the head is on the food. -/
def Snake.eats (s : Snake) (food : Food) : Bool :=
  s.head.pos == food.pos

/-- Snake::eats_self from the source: some body segment is at the head
position. -/
def Snake.eats_self (s : Snake) : Bool :=
  s.body.any (fun seg => s.head.pos == seg.pos)

/-- Snake::update from the source: move the head one step in the current
direction, push the old head onto the front of the body, test
self-collision first and food-collision second, pop the tail exactly when
nothing was eaten, and commit the direction that was used. -/
def Snake.update (s : Snake) (food : Food) : Snake :=
  let new_head_pos := GridPosition.new_from_move s.head.pos s.dir
  let new_head := Segment.new new_head_pos
  let moved : Snake := { s with head := new_head, body := s.head :: s.body }
  let ate : Option Ate :=
    if moved.eats_self then some Ate.Itself
    else if moved.eats food then some Ate.Food
    else none
  let body2 := if ate.isNone then moved.body.dropLast else moved.body
  { moved with ate := ate, body := body2, last_update_dir := moved.dir }

/-- GameState struct from the source. -/
structure GameState where
  snake : Snake
  food : Food
  gameover : Bool
  last_update : Nat
deriving DecidableEq

/-- GameState::new from the source: snake a quarter across and half down
the grid, food at a random position (supplied as the oracle argument
food_pos), game not over, timebase at the current instant t0. -/
def GameState.new (food_pos : GridPosition) (t0 : Nat) : GameState :=
  { snake := Snake.new ⟨GRID_SIZE.1 / 4, GRID_SIZE.2 / 2⟩
    food := Food.new food_pos
    gameover := false
    last_update := t0 }

/-- The EventHandler update method from the source (the per-frame tick):
if at least MILLIS_PER_UPDATE milliseconds elapsed since last_update then,
unless the game is over, update the snake and react to what it ate (Food:
respawn the food at the oracle draw; Itself: set gameover), and in either
case reset last_update to now. -/
def GameState.update (g : GameState) (now : Nat) (draw : Int × Int) : GameState :=
  if MILLIS_PER_UPDATE ≤ now - g.last_update then
    let g1 :=
      if g.gameover = false then
        let snake2 := g.snake.update g.food
        match snake2.ate with
        | some Ate.Food =>
            { g with snake := snake2
                     food := { pos := GridPosition.random draw } }
        | some Ate.Itself =>
            { g with snake := snake2, gameover := true }
        | none => { g with snake := snake2 }
      else g
    { g1 with last_update := now }
  else g

/-- The EventHandler key_down_event method from the source: convert the
keycode to a direction; if that succeeds and the inverse of the requested
direction differs from the direction used in the last completed update,
set the snake current direction. The gameover flag is never consulted. -/
def GameState.key_down_event (g : GameState) (key : KeyCode) : GameState :=
  match Direction.from_keycode key with
  | some dir =>
      if dir.inverse ≠ g.snake.last_update_dir then
        { g with snake := { g.snake with dir := dir } }
      else g
  | none => g

/-- Predicate: a position lies on the 30 x 20 board. -/
def inGrid (p : GridPosition) : Prop :=
  0 ≤ p.x ∧ p.x < GRID_SIZE.1 ∧ 0 ≤ p.y ∧ p.y < GRID_SIZE.2

instance (p : GridPosition) : Decidable (inGrid p) := by
  unfold inGrid; exact inferInstance

/-- Predicate: an oracle draw that gen_range(0, 30) and gen_range(0, 20)
can actually produce. -/
def drawInGrid (draw : Int × Int) : Prop :=
  0 ≤ draw.1 ∧ draw.1 < GRID_SIZE.1 ∧ 0 ≤ draw.2 ∧ draw.2 < GRID_SIZE.2

instance (draw : Int × Int) : Decidable (drawInGrid draw) := by
  unfold drawInGrid; exact inferInstance

/-- Reachable session states: the initial state for any in-grid food draw
and any start instant, closed under frame updates (with any later instant
and any in-grid respawn draw) and key events. -/
inductive Reachable : GameState → Prop where
  | init (food_pos : GridPosition) (t0 : Nat) :
      inGrid food_pos → Reachable (GameState.new food_pos t0)
  | frame (g : GameState) (now : Nat) (draw : Int × Int) :
      Reachable g → drawInGrid draw → Reachable (g.update now draw)
  | key (g : GameState) (k : KeyCode) :
      Reachable g → Reachable (g.key_down_event k)

/-- The head position computed inside Snake::update: one step from the
current head in the current direction. -/
def Snake.new_head_pos (s : Snake) : GridPosition :=
  GridPosition.new_from_move s.head.pos s.dir

/-- Iterated frame updates: fold GameState.update over a list of frame
instants paired with their potential respawn draws. -/
def run_frames (g : GameState) (frames : List (Nat × (Int × Int))) : GameState :=
  frames.foldl (fun acc fr => acc.update fr.1 fr.2) g

/-- A concrete terminal session: the initial snake, food at the origin,
gameover already set, timebase at instant 0. -/
def gover : GameState :=
  { snake := Snake.new ⟨7, 10⟩
    food := Food.new ⟨0, 0⟩
    gameover := true
    last_update := 0 }

/-- A concrete snake whose next head position (2, 0) coincides with its
single body segment. -/
def snake3 : Snake :=
  { head := Segment.new ⟨1, 0⟩
    dir := Direction.Right
    body := [Segment.new ⟨2, 0⟩]
    ate := none
    last_update_dir := Direction.Right }

/-! ### Wrap arithmetic -/

/-- The truncating remainder by a positive modulus is strictly greater
than the negated modulus. -/
lemma neg_lt_tmod (x : Int) {n : Int} (hn : 0 < n) : -n < x.tmod n := by
  cases x with
  | ofNat m =>
      have h0 : (0 : Int) ≤ (Int.ofNat m).tmod n :=
        Int.tmod_nonneg n (Int.ofNat_nonneg m)
      omega
  | negSucc m =>
      obtain ⟨k, rfl⟩ : ∃ j : Nat, n = (j : Int) := ⟨n.toNat, by omega⟩
      have hk : 0 < k := by exact_mod_cast hn
      have hrfl : (Int.negSucc m).tmod (k : Int) = -(((m + 1) % k : Nat) : Int) := rfl
      rw [hrfl]
      have hlt : (m + 1) % k < k := Nat.mod_lt _ hk
      omega

/-- For a positive modulus, the modulo of the source agrees with the
mathematical modulo Int.emod. -/
lemma modulo_eq_emod (x : Int) {n : Int} (hn : 0 < n) : modulo x n = x % n := by
  have h1 : 0 ≤ x.tmod n + n := by
    have := neg_lt_tmod x hn
    omega
  unfold modulo
  rw [Int.tmod_eq_emod h1 (Int.le_of_lt hn)]
  have h2 : (x.tmod n + n) % n = (x.tmod n) % n := by
    have h3 := Int.add_mul_emod_self_left (x.tmod n) n 1
    rw [Int.mul_one] at h3
    exact h3
  rw [h2]
  conv_rhs => rw [← Int.tmod_add_tdiv x n]
  rw [Int.add_mul_emod_self_left]

/-- For a positive modulus the result of modulo lies in [0, n). -/
lemma modulo_mem (x : Int) {n : Int} (hn : 0 < n) :
    0 ≤ modulo x n ∧ modulo x n < n := by
  rw [modulo_eq_emod x hn]
  exact ⟨Int.emod_nonneg x (by omega), Int.emod_lt_of_pos x hn⟩

/-- Modulo is idempotent for a positive modulus. -/
lemma modulo_idem (x : Int) {n : Int} (hn : 0 < n) :
    modulo (modulo x n) n = modulo x n := by
  rw [modulo_eq_emod (modulo x n) hn, modulo_eq_emod x hn,
    Int.emod_emod_of_dvd x (dvd_refl n)]

/-! ### Characterizations of the update and input operations -/

/-- The body produced by Snake.update: the old head is consed on and the
tail is dropped exactly when nothing was eaten. -/
lemma update_body_eq (s : Snake) (f : Food) :
    (s.update f).body =
      if ((s.update f).ate).isNone
      then (s.head :: s.body).dropLast else s.head :: s.body := rfl

/-- The head produced by Snake.update. -/
lemma update_head (s : Snake) (f : Food) :
    (s.update f).head.pos = s.new_head_pos := rfl

/-- The current direction is not changed by Snake.update and becomes the
committed direction. -/
lemma update_dir (s : Snake) (f : Food) :
    (s.update f).dir = s.dir ∧ (s.update f).last_update_dir = s.dir :=
  ⟨rfl, rfl⟩

/-- The eat outcome of Snake.update, in boolean form as in the source. -/
lemma update_ate (s : Snake) (f : Food) :
    (s.update f).ate =
      if (s.head :: s.body).any (fun seg => s.new_head_pos == seg.pos)
      then some Ate.Itself
      else if s.new_head_pos == f.pos then some Ate.Food
      else none := rfl

/-- Bridge between the boolean any of the source and an existential. -/
lemma any_pos_eq_exists (p : GridPosition) (l : List Segment) :
    (l.any (fun seg => p == seg.pos) = true) ↔ ∃ seg ∈ l, p = seg.pos := by
  simp [List.any_eq_true]

/-- The eat outcome of Snake.update, in propositional form. -/
lemma update_ate_iff (s : Snake) (f : Food) :
    (s.update f).ate =
      if ∃ seg ∈ s.head :: s.body, s.new_head_pos = seg.pos
      then some Ate.Itself
      else if s.new_head_pos = f.pos then some Ate.Food
      else none := by
  rw [update_ate s f]
  by_cases h1 : ∃ seg ∈ s.head :: s.body, s.new_head_pos = seg.pos
  · rw [if_pos ((any_pos_eq_exists _ _).mpr h1), if_pos h1]
  · rw [if_neg (fun hb => h1 ((any_pos_eq_exists _ _).mp hb)), if_neg h1]
    by_cases h2 : s.new_head_pos = f.pos
    · rw [if_pos (beq_iff_eq.mpr h2), if_pos h2]
    · rw [if_neg (fun hb => h2 (beq_iff_eq.mp hb)), if_neg h2]

/-- Every segment of the updated body was the old head or an old body
segment. -/
lemma update_body_subset (s : Snake) (f : Food) :
    ∀ seg ∈ (s.update f).body, seg ∈ s.head :: s.body := by
  intro seg hseg
  rw [update_body_eq s f] at hseg
  by_cases h : ((s.update f).ate).isNone
  · rw [if_pos h] at hseg
    exact List.dropLast_subset _ hseg
  · rw [if_neg h] at hseg
    exact hseg

/-- Unfolding of key_down_event on a keycode that maps to a direction. -/
lemma key_down_eq (g : GameState) (k : KeyCode) (d : Direction)
    (hk : Direction.from_keycode k = some d) :
    g.key_down_event k =
      if d.inverse ≠ g.snake.last_update_dir
      then { g with snake := { g.snake with dir := d } } else g := by
  unfold GameState.key_down_event
  rw [hk]

/-- A frame update on a terminal session only resets the timebase, and
only when the tick interval has elapsed. -/
lemma update_gameover_true (g : GameState) (now : Nat) (draw : Int × Int)
    (h : g.gameover = true) :
    g.update now draw =
      if MILLIS_PER_UPDATE ≤ now - g.last_update
      then { g with last_update := now } else g := by
  by_cases h1 : MILLIS_PER_UPDATE ≤ now - g.last_update
  · rw [if_pos h1]
    simp only [GameState.update]
    rw [if_pos h1, if_neg (by rw [h]; decide)]
  · rw [if_neg h1]
    simp only [GameState.update]
    rw [if_neg h1]

/-- A frame update on an active session with the interval elapsed: the
snake is updated exactly once, the timebase is reset to now, and the food
and gameover fields react to the recorded eat outcome. -/
lemma update_fired (g : GameState) (now : Nat) (draw : Int × Int)
    (hgo : g.gameover = false) (h1 : MILLIS_PER_UPDATE ≤ now - g.last_update) :
    (g.update now draw).snake = g.snake.update g.food ∧
    (g.update now draw).last_update = now ∧
    (g.update now draw).food =
      (if (g.snake.update g.food).ate = some Ate.Food
       then Food.new (GridPosition.random draw) else g.food) ∧
    (g.update now draw).gameover =
      (if (g.snake.update g.food).ate = some Ate.Itself
       then true else g.gameover) := by
  simp only [GameState.update]
  rw [if_pos h1, if_pos hgo]
  cases hate : (g.snake.update g.food).ate with
  | none =>
      exact ⟨rfl, rfl, by rw [if_neg (by decide)]; try rfl, by rw [if_neg (by decide)]; try rfl⟩
  | some a =>
      cases a with
      | Food =>
          exact ⟨rfl, rfl, by rw [if_pos rfl]; try rfl, by rw [if_neg (by decide)]; try rfl⟩
      | Itself =>
          exact ⟨rfl, rfl, by rw [if_neg (by decide)]; try rfl, by rw [if_pos rfl]; try rfl⟩

/-- The snake after a frame update is the old snake or the old snake
updated exactly once. -/
lemma update_snake_eq (g : GameState) (now : Nat) (draw : Int × Int) :
    (g.update now draw).snake = g.snake ∨
    (g.update now draw).snake = g.snake.update g.food := by
  by_cases h1 : MILLIS_PER_UPDATE ≤ now - g.last_update
  · by_cases h2 : g.gameover = false
    · exact Or.inr (update_fired g now draw h2 h1).1
    · have hb : g.gameover = true := by
        revert h2
        cases g.gameover <;> simp
      rw [update_gameover_true g now draw hb]
      left
      split <;> rfl
  · left
    simp only [GameState.update]
    rw [if_neg h1]

/-! ### Reachability invariants -/

/-- In every reachable session state the inverse of the current direction
differs from the last committed direction: the inverse guard filters key
events, updates commit the unchanged current direction, and no direction
is its own inverse. -/
lemma reachable_no_reverse (g : GameState) (h : Reachable g) :
    g.snake.dir.inverse ≠ g.snake.last_update_dir := by
  induction h with
  | init p t hp =>
      simp only [GameState.new, Snake.new]
      decide
  | frame g now draw hg hdraw ih =>
      rcases update_snake_eq g now draw with hs | hs
      · rw [hs]
        exact ih
      · rw [hs, (update_dir g.snake g.food).1, (update_dir g.snake g.food).2]
        cases g.snake.dir <;> decide
  | key g k hg ih =>
      cases hk : Direction.from_keycode k with
      | none =>
          unfold GameState.key_down_event
          rw [hk]
          exact ih
      | some d =>
          rw [key_down_eq g k d hk]
          by_cases hd : d.inverse ≠ g.snake.last_update_dir
          · rw [if_pos hd]
            exact hd
          · rw [if_neg hd]
            exact ih

/-- A step off any in-grid position stays in the grid, by the range of the
signed modulo. -/
lemma new_from_move_inGrid (p : GridPosition) (d : Direction) (hp : inGrid p) :
    inGrid (GridPosition.new_from_move p d) := by
  obtain ⟨hx0, hx1, hy0, hy1⟩ := hp
  cases d with
  | Up =>
      exact ⟨hx0, hx1, (modulo_mem (p.y - 1) (by decide)).1,
        (modulo_mem (p.y - 1) (by decide)).2⟩
  | Down =>
      exact ⟨hx0, hx1, (modulo_mem (p.y + 1) (by decide)).1,
        (modulo_mem (p.y + 1) (by decide)).2⟩
  | Left =>
      exact ⟨(modulo_mem (p.x - 1) (by decide)).1,
        (modulo_mem (p.x - 1) (by decide)).2, hy0, hy1⟩
  | Right =>
      exact ⟨(modulo_mem (p.x + 1) (by decide)).1,
        (modulo_mem (p.x + 1) (by decide)).2, hy0, hy1⟩

/-- Key events change no position and no food. -/
lemma key_down_positions (g : GameState) (k : KeyCode) :
    (g.key_down_event k).snake.head = g.snake.head ∧
    (g.key_down_event k).snake.body = g.snake.body ∧
    (g.key_down_event k).food = g.food := by
  cases hk : Direction.from_keycode k with
  | none =>
      unfold GameState.key_down_event
      rw [hk]
      exact ⟨rfl, rfl, rfl⟩
  | some d =>
      rw [key_down_eq g k d hk]
      by_cases hd : d.inverse ≠ g.snake.last_update_dir
      · rw [if_pos hd]
        exact ⟨rfl, rfl, rfl⟩
      · rw [if_neg hd]
        exact ⟨rfl, rfl, rfl⟩

/-! ### The claims -/

/-- C1: direction-change guard. An arrow-key input carrying direction d
leaves the current direction unchanged when inverse(d) equals the last
committed direction and sets it to d otherwise; in every reachable state
whose last committed direction is Right, a Left input leaves the effective
direction unequal to Left while Up and Down inputs take effect. -/
theorem direction_guard (g : GameState) (k : KeyCode) (d : Direction)
    (hk : Direction.from_keycode k = some d) :
    ((d.inverse = g.snake.last_update_dir →
        (g.key_down_event k).snake.dir = g.snake.dir) ∧
     (d.inverse ≠ g.snake.last_update_dir →
        (g.key_down_event k).snake.dir = d)) ∧
    (Reachable g → g.snake.last_update_dir = Direction.Right →
      (g.key_down_event KeyCode.Left).snake.dir ≠ Direction.Left ∧
      (g.key_down_event KeyCode.Up).snake.dir = Direction.Up ∧
      (g.key_down_event KeyCode.Down).snake.dir = Direction.Down) := by
  constructor
  · constructor
    · intro he
      rw [key_down_eq g k d hk, if_neg (fun hc => hc he)]
    · intro hne
      rw [key_down_eq g k d hk, if_pos hne]
  · intro hr hright
    have hinv := reachable_no_reverse g hr
    have hdir : g.snake.dir ≠ Direction.Left := by
      intro hc
      rw [hc, hright] at hinv
      exact hinv rfl
    refine ⟨?_, ?_, ?_⟩
    · rw [key_down_eq g KeyCode.Left Direction.Left rfl,
        if_neg (fun hc => hc (by rw [hright]; decide))]
      exact hdir
    · rw [key_down_eq g KeyCode.Up Direction.Up rfl, if_pos (by rw [hright]; decide)]
    · rw [key_down_eq g KeyCode.Down Direction.Down rfl, if_pos (by rw [hright]; decide)]

/-- Witness for C1 at the initial state, whose last committed direction is
Right. -/
theorem direction_guard_witness :
    ((GameState.new ⟨0, 0⟩ 0).key_down_event KeyCode.Left).snake.dir ≠ Direction.Left ∧
    ((GameState.new ⟨0, 0⟩ 0).key_down_event KeyCode.Up).snake.dir = Direction.Up ∧
    ((GameState.new ⟨0, 0⟩ 0).key_down_event KeyCode.Down).snake.dir = Direction.Down :=
  (direction_guard (GameState.new ⟨0, 0⟩ 0) KeyCode.Up Direction.Up rfl).2
    (Reachable.init ⟨0, 0⟩ 0 (by decide)) rfl

/-- C2: for every integer x and positive n the signed modulo of the source
equals the mathematical modulo, equals the normalized form
(x mod n + n) mod n, lies in the half-open interval from 0 to n, and is
idempotent. -/
theorem modulo_spec (x n : Int) (hn : 0 < n) :
    modulo x n = x % n ∧
    modulo x n = (x % n + n) % n ∧
    0 ≤ modulo x n ∧ modulo x n < n ∧
    modulo (modulo x n) n = modulo x n := by
  have h := modulo_eq_emod x hn
  have hmem := modulo_mem x hn
  refine ⟨h, ?_, hmem.1, hmem.2, modulo_idem x hn⟩
  have h3 := Int.add_mul_emod_self_left (x % n) n 1
  rw [Int.mul_one] at h3
  rw [h, h3, Int.emod_emod_of_dvd x (dvd_refl n)]

/-- Witness for C2 at the negative input -7 with modulus 30. -/
theorem modulo_spec_witness :
    modulo (-7) 30 = (-7) % 30 ∧
    modulo (-7) 30 = ((-7) % 30 + 30) % 30 ∧
    0 ≤ modulo (-7) 30 ∧ modulo (-7) 30 < 30 ∧
    modulo (modulo (-7) 30) 30 = modulo (-7) 30 :=
  modulo_spec (-7) 30 (by decide)

/-- C3: collision-check priority. After the head advances and the old head
is pushed onto the body, self-collision against every segment now in the
body decides the outcome first and food-collision second; in particular
when the new head hits both a body segment and the food the outcome is
Itself. -/
theorem collision_priority (s : Snake) (f : Food) :
    ((∃ seg ∈ s.head :: s.body, s.new_head_pos = seg.pos) →
        (s.update f).ate = some Ate.Itself) ∧
    ((∀ seg ∈ s.head :: s.body, s.new_head_pos ≠ seg.pos) → s.new_head_pos = f.pos →
        (s.update f).ate = some Ate.Food) ∧
    ((∀ seg ∈ s.head :: s.body, s.new_head_pos ≠ seg.pos) → s.new_head_pos ≠ f.pos →
        (s.update f).ate = none) ∧
    ((∃ seg ∈ s.head :: s.body, s.new_head_pos = seg.pos) → s.new_head_pos = f.pos →
        (s.update f).ate = some Ate.Itself) := by
  have h := update_ate_iff s f
  refine ⟨fun hex => ?_, fun hall hf => ?_, fun hall hf => ?_, fun hex _ => ?_⟩
  · rw [h, if_pos hex]
  · have hno : ¬ ∃ seg ∈ s.head :: s.body, s.new_head_pos = seg.pos := by
      rintro ⟨seg, hm, he⟩
      exact hall seg hm he
    rw [h, if_neg hno, if_pos hf]
  · have hno : ¬ ∃ seg ∈ s.head :: s.body, s.new_head_pos = seg.pos := by
      rintro ⟨seg, hm, he⟩
      exact hall seg hm he
    rw [h, if_neg hno, if_neg hf]
  · rw [h, if_pos hex]

/-- Witness for C3: a snake whose next head position coincides with both a
body segment and the food records Itself, not Food. -/
theorem collision_priority_witness :
    (snake3.update (Food.new ⟨2, 0⟩)).ate = some Ate.Itself :=
  (collision_priority snake3 (Food.new ⟨2, 0⟩)).2.2.2 (by decide) (by decide)

/-- C4: body-length law. An update with outcome none keeps the body length
unchanged, any other outcome grows it by exactly one, and the length never
decreases nor changes by more than one. -/
theorem body_length_law (s : Snake) (f : Food) :
    ((s.update f).ate = none → (s.update f).body.length = s.body.length) ∧
    ((s.update f).ate ≠ none → (s.update f).body.length = s.body.length + 1) ∧
    s.body.length ≤ (s.update f).body.length ∧
    (s.update f).body.length ≤ s.body.length + 1 := by
  rcases hate : (s.update f).ate with _ | a
  · have hlen : (s.update f).body.length = s.body.length := by
      rw [update_body_eq s f, hate]
      simp
    refine ⟨fun _ => hlen, fun hc => absurd rfl hc, ?_, ?_⟩ <;> omega
  · have hlen : (s.update f).body.length = s.body.length + 1 := by
      rw [update_body_eq s f, hate]
      simp
    refine ⟨fun hc => Option.noConfusion hc, fun _ => hlen, ?_, ?_⟩
    · omega
    · omega

/-- Witness for C4: the initial snake stepping onto an empty cell keeps
length 2, and snake3 biting itself grows from 1 to 2. -/
theorem body_length_law_witness :
    ((Snake.new ⟨7, 10⟩).update (Food.new ⟨0, 0⟩)).body.length =
      (Snake.new ⟨7, 10⟩).body.length ∧
    (snake3.update (Food.new ⟨0, 0⟩)).body.length = snake3.body.length + 1 :=
  ⟨(body_length_law (Snake.new ⟨7, 10⟩) (Food.new ⟨0, 0⟩)).1 (by decide),
   (body_length_law snake3 (Food.new ⟨0, 0⟩)).2.1 (by decide)⟩

/-- C5: game-over irreversibility. From any terminal session state, any
sequence of further frame updates leaves the snake and the food unchanged
and the session stays terminal. -/
theorem gameover_irreversible (g : GameState) (h : g.gameover = true)
    (frames : List (Nat × (Int × Int))) :
    (run_frames g frames).snake = g.snake ∧
    (run_frames g frames).food = g.food ∧
    (run_frames g frames).gameover = true := by
  induction frames generalizing g with
  | nil => exact ⟨rfl, rfl, h⟩
  | cons fr rest ih =>
      have hstep : (g.update fr.1 fr.2).snake = g.snake ∧
          (g.update fr.1 fr.2).food = g.food ∧
          (g.update fr.1 fr.2).gameover = true := by
        rw [update_gameover_true g fr.1 fr.2 h]
        split <;> exact ⟨rfl, rfl, h⟩
      have hrest := ih (g.update fr.1 fr.2) hstep.2.2
      have hfold : run_frames g (fr :: rest) = run_frames (g.update fr.1 fr.2) rest := rfl
      rw [hfold]
      exact ⟨by rw [hrest.1, hstep.1], by rw [hrest.2.1, hstep.2.1], hrest.2.2⟩

/-- Witness for C5: two further frames on a concrete terminal session. -/
theorem gameover_irreversible_witness :
    (run_frames gover [(125, (3, 4)), (300, (5, 6))]).snake = gover.snake ∧
    (run_frames gover [(125, (3, 4)), (300, (5, 6))]).food = gover.food ∧
    (run_frames gover [(125, (3, 4)), (300, (5, 6))]).gameover = true :=
  gameover_irreversible gover rfl [(125, (3, 4)), (300, (5, 6))]

/-- C6: food respawn without exclusion. When an active update records
outcome Food, the food position becomes exactly the single oracle draw,
even when that draw lies on the head or on a body segment of the updated
snake. -/
theorem food_respawn_no_exclusion (g : GameState) (now : Nat) (draw : Int × Int)
    (hgo : g.gameover = false)
    (ht : MILLIS_PER_UPDATE ≤ now - g.last_update)
    (hate : (g.snake.update g.food).ate = some Ate.Food)
    (_hocc : GridPosition.random draw = (g.snake.update g.food).head.pos ∨
            ∃ seg ∈ (g.snake.update g.food).body, GridPosition.random draw = seg.pos) :
    (g.update now draw).food.pos = GridPosition.random draw := by
  have h := (update_fired g now draw hgo ht).2.2.1
  rw [h, if_pos hate]
  rfl

/-- Witness for C6: the initial snake eats the food at (8, 10) and the
respawn draw (7, 10) lands on the first body segment of the updated snake;
the food is placed there anyway. -/
theorem food_respawn_no_exclusion_witness :
    ((GameState.new ⟨8, 10⟩ 0).update 125 (7, 10)).food.pos =
      GridPosition.random (7, 10) :=
  food_respawn_no_exclusion (GameState.new ⟨8, 10⟩ 0) 125 (7, 10) rfl (by decide)
    (by decide) (Or.inr (by decide))

/-- C7: tick gating on an active session. A poll fires the single logical
snake update and resets the timebase to now exactly when the elapsed time
reaches the tick interval; an early poll changes nothing, and surplus
elapsed intervals are dropped because the timebase is reset to now itself. -/
theorem tick_gating (g : GameState) (now : Nat) (draw : Int × Int)
    (hgo : g.gameover = false) :
    (MILLIS_PER_UPDATE ≤ now - g.last_update →
      (g.update now draw).snake = g.snake.update g.food ∧
      (g.update now draw).last_update = now) ∧
    (now - g.last_update < MILLIS_PER_UPDATE → g.update now draw = g) := by
  refine ⟨fun h1 => ?_, fun h2 => ?_⟩
  · have h := update_fired g now draw hgo h1
    exact ⟨h.1, h.2.1⟩
  · simp only [GameState.update]
    rw [if_neg (by omega)]

/-- Witness for C7: from the initial state at instant 0, a poll at 125
fires one update and resets the timebase, and a poll at 10 is a no-op. -/
theorem tick_gating_witness :
    ((GameState.new ⟨0, 0⟩ 0).update 125 (1, 1)).snake =
      (GameState.new ⟨0, 0⟩ 0).snake.update (GameState.new ⟨0, 0⟩ 0).food ∧
    ((GameState.new ⟨0, 0⟩ 0).update 125 (1, 1)).last_update = 125 ∧
    (GameState.new ⟨0, 0⟩ 0).update 10 (1, 1) = GameState.new ⟨0, 0⟩ 0 := by
  have h1 := (tick_gating (GameState.new ⟨0, 0⟩ 0) 125 (1, 1) rfl).1 (by decide)
  have h2 := (tick_gating (GameState.new ⟨0, 0⟩ 0) 10 (1, 1) rfl).2 (by decide)
  exact ⟨h1.1, h1.2, h2⟩

/-- C8 counterexample: on a terminal session with timebase 0, a poll at
instant 125 changes the last_update field, so the poll is not a no-op on
every field. -/
theorem terminal_noop_cex :
    (gover.update 125 (0, 0)).last_update ≠ gover.last_update := by
  decide

/-- C8 amended: on a terminal session a poll leaves the snake, the food
and the gameover flag unchanged, and resets last_update to now exactly
when the tick interval has elapsed (otherwise it too is unchanged). -/
theorem terminal_noop_amended (g : GameState) (now : Nat) (draw : Int × Int)
    (h : g.gameover = true) :
    (g.update now draw).snake = g.snake ∧
    (g.update now draw).food = g.food ∧
    (g.update now draw).gameover = true ∧
    (g.update now draw).last_update =
      (if MILLIS_PER_UPDATE ≤ now - g.last_update then now else g.last_update) := by
  rw [update_gameover_true g now draw h]
  by_cases h1 : MILLIS_PER_UPDATE ≤ now - g.last_update
  · rw [if_pos h1, if_pos h1]
    exact ⟨rfl, rfl, h, rfl⟩
  · rw [if_neg h1, if_neg h1]
    exact ⟨rfl, rfl, h, rfl⟩

/-- Witness for C8 amended at the concrete terminal session and instant
125. -/
theorem terminal_noop_amended_witness :
    (gover.update 125 (0, 0)).snake = gover.snake ∧
    (gover.update 125 (0, 0)).food = gover.food ∧
    (gover.update 125 (0, 0)).gameover = true ∧
    (gover.update 125 (0, 0)).last_update =
      (if MILLIS_PER_UPDATE ≤ 125 - gover.last_update then 125 else gover.last_update) :=
  terminal_noop_amended gover 125 (0, 0) rfl

/-- C9: grid-bounds invariant. In every reachable session state the head,
every body segment and the food lie on the 30 x 20 board. -/
theorem grid_bounds_invariant (g : GameState) (h : Reachable g) :
    inGrid g.snake.head.pos ∧
    (∀ seg ∈ g.snake.body, inGrid seg.pos) ∧
    inGrid g.food.pos := by
  induction h with
  | init p t hp =>
      refine ⟨?_, ?_, hp⟩
      · show inGrid (Snake.new ⟨GRID_SIZE.1 / 4, GRID_SIZE.2 / 2⟩).head.pos
        decide
      · show ∀ seg ∈ (Snake.new ⟨GRID_SIZE.1 / 4, GRID_SIZE.2 / 2⟩).body, inGrid seg.pos
        decide
  | frame g now draw hg hdraw ih =>
      obtain ⟨ihh, ihb, ihf⟩ := ih
      by_cases h1 : MILLIS_PER_UPDATE ≤ now - g.last_update
      · by_cases h2 : g.gameover = false
        · have hf := update_fired g now draw h2 h1
          refine ⟨?_, ?_, ?_⟩
          · rw [hf.1, update_head]
            exact new_from_move_inGrid _ _ ihh
          · rw [hf.1]
            intro seg hseg
            rcases List.mem_cons.mp (update_body_subset g.snake g.food seg hseg) with he | hm
            · rw [he]
              exact ihh
            · exact ihb seg hm
          · rw [hf.2.2.1]
            by_cases hate : (g.snake.update g.food).ate = some Ate.Food
            · rw [if_pos hate]
              exact hdraw
            · rw [if_neg hate]
              exact ihf
        · have hb : g.gameover = true := by
            revert h2
            cases g.gameover <;> simp
          rw [update_gameover_true g now draw hb]
          split <;> exact ⟨ihh, ihb, ihf⟩
      · have hid : g.update now draw = g := by
          simp only [GameState.update]
          rw [if_neg h1]
        rw [hid]
        exact ⟨ihh, ihb, ihf⟩
  | key g k hg ih =>
      have hk := key_down_positions g k
      rw [hk.1, hk.2.1, hk.2.2]
      exact ih

/-- Witness for C9 at the initial state with the food at the origin. -/
theorem grid_bounds_invariant_witness :
    inGrid (GameState.new ⟨0, 0⟩ 0).snake.head.pos ∧
    (∀ seg ∈ (GameState.new ⟨0, 0⟩ 0).snake.body, inGrid seg.pos) ∧
    inGrid (GameState.new ⟨0, 0⟩ 0).food.pos :=
  grid_bounds_invariant (GameState.new ⟨0, 0⟩ 0) (Reachable.init ⟨0, 0⟩ 0 (by decide))

/-- C10: direction input is accepted after game over. The key handler does
not consult the gameover flag, so on a terminal session an arrow key whose
direction passes the inverse guard still mutates the current direction. -/
theorem input_after_gameover (g : GameState) (k : KeyCode) (d : Direction)
    (hgo : g.gameover = true)
    (hk : Direction.from_keycode k = some d)
    (hguard : d.inverse ≠ g.snake.last_update_dir) :
    (g.key_down_event k).snake.dir = d ∧
    (g.key_down_event k).gameover = true := by
  rw [key_down_eq g k d hk, if_pos hguard]
  exact ⟨rfl, hgo⟩

/-- Witness for C10: the Up key on a concrete terminal session whose last
committed direction is Right. -/
theorem input_after_gameover_witness :
    (gover.key_down_event KeyCode.Up).snake.dir = Direction.Up ∧
    (gover.key_down_event KeyCode.Up).gameover = true :=
  input_after_gameover gover KeyCode.Up Direction.Up rfl rfl (by decide)
